import Mathlib

/-!
# Verification of the Tidal rag_system ingestion pipeline

Shallow embedding of `src/rag_system/ingest_files_smart.py` and
`src/rag_system/reset_and_reingest.py`, together with proofs settling the
frozen claims about the natural-language specification.

Modelling conventions:
* Python `dict` (string keys) is an association list with unique keys;
  `dictSet` updates in place / appends, matching Python insertion order.
* HTTP traffic to the sink is an oracle value (`HttpResponse`): the code
  under test only branches on status code / parsed JSON shape, which the
  oracle carries.  Exceptions raised by the `requests` library are the
  `exn` constructor.
* Machine integers are `Int` / `Nat` (Python integers are unbounded, so no
  wraparound modelling is needed).
* `json.dump(tracking, f, indent=2)` on a flat string-to-string dict always
  emits one canonical layout; `serializeTracking` reproduces it, and
  `parseChars` models `json.load` restricted to that canonical layout
  (a store written by the program itself).  `json.load` raising on an
  unparseable store is `Option.none`.
-/

namespace Tidal

/-! ## String ordering (Python `sorted` compares strings by code points) -/

def charsLe : List Char → List Char → Bool
  | [], _ => true
  | _ :: _, [] => false
  | a :: as, b :: bs => if a = b then charsLe as bs else decide (a < b)

def strLe (a b : String) : Prop := charsLe a.toList b.toList = true

instance : DecidableRel strLe := fun a b => by
  unfold strLe; infer_instance

/-! ## Python dict semantics (string keys) -/

/-- Association list standing for a Python `dict` from `str` to `str`. -/
abbrev Tracking := List (String × String)

/-- `d[k]` lookup (`k in d` is `lookupT d k ≠ none`). -/
def lookupT : Tracking → String → Option String
  | [], _ => none
  | (k, v) :: rest, key => if k = key then some v else lookupT rest key

/-- `d[k] = v`: overwrite in place if the key exists, else append
(Python dicts preserve insertion order). -/
def dictSet : Tracking → String → String → Tracking
  | [], key, val => [(key, val)]
  | (k, v) :: rest, key, val =>
    if k = key then (k, val) :: rest else (k, v) :: dictSet rest key val

/-! ## The HTTP responses of the sink -/

/-- Shape of the parsed JSON body of a MindsDB response: the `type` field,
the `data` rows of a tabular result, and the `error_message` field. -/
structure JsonBody where
  typ : String
  data : List (List Int)
  error_message : String
deriving DecidableEq

/-- One HTTP exchange with the sink, as seen by the Python code: a 200
response with parsed JSON, a non-200 status, or a raised exception. -/
inductive HttpResponse where
  | ok (body : JsonBody)
  | httpErr (code : Nat)
  | exn (msg : String)
deriving DecidableEq

namespace Smart

/-! ## Embedding of `src/rag_system/ingest_files_smart.py` -/

def MINDSDB_API : String := "http://localhost:47334/api/sql/query"

def TRACKING_FILE : String := ".ingested_files.json"

/-- Result of `execute_sql`: the Python pair `(True, response.json())` or
`(False, message)`. -/
inductive ExecResult where
  | success (body : JsonBody)
  | failure (msg : String)
deriving DecidableEq

/-- `execute_sql` (ingest_files_smart.py lines 17-32): 200 gives
`(True, json)`, any other status gives `(False, "Error: <code>")`, an
exception gives `(False, str(e))`. -/
def execute_sql : HttpResponse → ExecResult
  | HttpResponse.ok body => ExecResult.success body
  | HttpResponse.httpErr code => ExecResult.failure ("Error: " ++ toString code)
  | HttpResponse.exn msg => ExecResult.failure msg

/-- `get_chunk_count` (lines 34-42): returns the first cell of the first data row when the
call succeeded with a `table` result; returns 0 when the call failed, the
result is not a table, or indexing raises (bare `except: return 0`). -/
def get_chunk_count (resp : HttpResponse) : Int :=
  match execute_sql resp with
  | ExecResult.success body =>
    if body.typ = "table" then
      match body.data with
      | (v :: _) :: _ => v
      | _ => 0
    else 0
  | ExecResult.failure _ => 0

/-- The SQL single-quote character (written via its code point to keep the
source free of literal quote characters). -/
def squote : Char := Char.ofNat 39

/-- `escape_sql_string` char by char: each single quote is doubled. -/
def escapeChars : List Char → List Char
  | [] => []
  | c :: rest =>
    if c = squote then squote :: squote :: escapeChars rest
    else c :: escapeChars rest

/-- `escape_sql_string` (lines 61-63): every single quote in the text is
replaced by two single quotes. -/
def escape_sql_string (s : String) : String := String.mk (escapeChars s.toList)

/-- One candidate file as `ingest_file` sees it: its key `str(file_path)`,
its content hash `file_hash(file_path)`, and the result of
`open(file_path).read()` (which may raise). -/
structure FileInput where
  key : String
  hash : String
  readResult : Except String String

/-- Sink oracle for one `ingest_file` call: the response to the baseline
`count`, to the `INSERT` (as a function of the query text), and to the
post-submission `count`. -/
structure SinkOracle where
  countBefore : HttpResponse
  submit : String → HttpResponse
  countAfter : HttpResponse

/-- Which sink operations an `ingest_file` call performed, in order. -/
inductive SinkCall where
  | countCall
  | submitCall
deriving DecidableEq

/-- Return value of `ingest_file` (`(status, msg, chunks)`) together with
the updated tracking dict and the trace of sink calls made. -/
structure IngestResult where
  status : String
  msg : String
  chunks : Int
  tracking : Tracking
  sinkCalls : List SinkCall
deriving DecidableEq

/-- The `INSERT` query text built at lines 84-87: the escaped content is
wrapped in single quotes inside the SQL statement. -/
def insertQuery (content : String) : String :=
  "\nINSERT INTO prd_knowledge_base (content)\nSELECT " ++ String.mk [squote] ++
    escape_sql_string content ++ String.mk [squote] ++ " AS content;\n"

/-- `ingest_file` (lines 65-103).  Skip when the tracking entry equals the
current hash; otherwise take the baseline count, read the file (a raise is
the outer `except`), submit, and on success diff the counts and update the
tracking entry; on failure leave the tracking dict untouched. -/
def ingest_file (f : FileInput) (tracking : Tracking) (sink : SinkOracle) :
    IngestResult :=
  let file_key := f.key
  let current_hash := f.hash
  if lookupT tracking file_key = some current_hash then
    ⟨"skipped", "Already ingested", 0, tracking, []⟩
  else
    let chunks_before := get_chunk_count sink.countBefore
    match f.readResult with
    | Except.error e => ⟨"failed", e, 0, tracking, [SinkCall.countCall]⟩
    | Except.ok content =>
      let query := insertQuery content
      match execute_sql (sink.submit query) with
      | ExecResult.success _ =>
        let chunks_after := get_chunk_count sink.countAfter
        let chunks_created := chunks_after - chunks_before
        ⟨"ingested", "Success", chunks_created,
          dictSet tracking file_key current_hash,
          [SinkCall.countCall, SinkCall.submitCall, SinkCall.countCall]⟩
      | ExecResult.failure m =>
        ⟨"failed", m, 0, tracking, [SinkCall.countCall, SinkCall.submitCall]⟩

/-! ## The persisted tracking store

`save_tracking` is `json.dump(tracking, f, indent=2)` on a flat
string-to-string dict, which always emits the canonical layout
`\x7b\n  "k": "v",\n  "k2": "v2"\n\x7d` (and `\x7b\x7d` for the empty
dict).  `load_tracking` is `json.load`, modelled on that canonical layout;
an input it cannot parse stands for `json.load` raising
`JSONDecodeError`. -/

def braceL : Char := Char.ofNat 123
def braceR : Char := Char.ofNat 125
def dquote : Char := Char.ofNat 34

/-- `"k": "v"` as characters. -/
def serializeEntryChars (kv : String × String) : List Char :=
  dquote :: kv.1.toList ++ dquote :: ':' :: ' ' :: dquote :: kv.2.toList ++ [dquote]

/-- The separator `json.dump` puts between entries at `indent=2`. -/
def sepChars : List Char := [',', '\n', ' ', ' ']

def serializeBodyChars : Tracking → List Char
  | [] => []
  | [kv] => serializeEntryChars kv
  | kv :: rest => serializeEntryChars kv ++ sepChars ++ serializeBodyChars rest

def serializeChars : Tracking → List Char
  | [] => [braceL, braceR]
  | kv :: rest =>
    braceL :: '\n' :: ' ' :: ' ' :: serializeBodyChars (kv :: rest) ++ ['\n', braceR]

/-- Exact text `json.dump(tracking, f, indent=2)` writes for a flat
string-to-string dict. -/
def serializeTracking (t : Tracking) : String := String.mk (serializeChars t)

/-- Consume characters up to the next `"`; `none` when the input ends
before a closing quote. -/
def takeStr : List Char → Option (List Char × List Char)
  | [] => none
  | c :: rest =>
    if c = dquote then some ([], rest)
    else
      match takeStr rest with
      | some (s, r) => some (c :: s, r)
      | none => none

/-- Parse the entry list of a non-empty canonical store, positioned at the
opening quote of a key; `fuel` bounds the number of entries. -/
def parsePairs : Nat → List Char → Option Tracking
  | 0, _ => none
  | _ + 1, [] => none
  | fuel + 1, c :: cs =>
    if c = dquote then
      match takeStr cs with
      | some (k, r1) =>
        match r1 with
        | ':' :: ' ' :: q :: r2 =>
          if q = dquote then
            match takeStr r2 with
            | some (v, r3) =>
              match r3 with
              | ['\n', b] =>
                if b = braceR then some [(String.mk k, String.mk v)] else none
              | ',' :: '\n' :: ' ' :: ' ' :: r4 =>
                match parsePairs fuel r4 with
                | some rest => some ((String.mk k, String.mk v) :: rest)
                | none => none
              | _ => none
            | none => none
          else none
        | _ => none
      | none => none
    else none

/-- `json.load` on the store file, restricted to the canonical layout the
program itself writes; `none` models `json.load` raising. -/
def parseChars : List Char → Option Tracking
  | [a, b] => if a = braceL ∧ b = braceR then some [] else none
  | a :: '\n' :: ' ' :: ' ' :: rest =>
    if a = braceL then parsePairs (rest.length + 1) rest else none
  | _ => none

def parseTracking (s : String) : Option Tracking := parseChars s.toList

/-- `load_tracking` (lines 49-54): takes the content of the store file when it
exists (`none` = `Path(TRACKING_FILE).exists()` is false, returning
`\x7b\x7d`); a parse failure is `json.load` raising, which propagates out
of `load_tracking` uncaught. -/
def load_tracking (store : Option String) : Except String Tracking :=
  match store with
  | none => Except.ok []
  | some content =>
    match parseTracking content with
    | some t => Except.ok t
    | none => Except.error "json.decoder.JSONDecodeError"

/-- `save_tracking` (lines 56-59): opening the file in write mode truncates the
store in place, then `json.dump` writes the serialized text left to right.
The persisted states observable if the process crashes during the save are
therefore exactly the prefixes of the final text (the empty file included,
right after truncation). -/
def save_crash_state (t : Tracking) (s : String) : Prop :=
  ∃ n, s.toList = (serializeChars t).take n

/-- Content of the store after a completed `save_tracking`. -/
def save_tracking (t : Tracking) : String := serializeTracking t

/-! ## The run (`main`, lines 105-199) -/

/-- One file of a directory listing, as the run sees it: its name within
the directory, its `file_hash`, the result of reading it, and its sink
oracle for the (at most one) `ingest_file` call made on it. -/
structure FileSpec where
  name : String
  hash : String
  readResult : Except String String
  sink : SinkOracle

/-- `stats` dict of `main` (line 136). -/
structure Stats where
  ingested : Nat
  skipped : Nat
  failed : Nat
  total_chunks : Int
deriving DecidableEq

/-- Operations `main` performs on the persisted tracking-store file. -/
inductive StoreOp where
  | readOp
  | writeOp (content : String)
  | deleteOp
deriving DecidableEq

/-- Everything observable about a run that reached `sys.exit` at line 199. -/
structure RunOutput where
  stats : Stats
  tracking : Tracking
  saved : String
  outcomes : List (String × String)
  storeOps : List StoreOp
  exitCode : Nat
deriving DecidableEq

/-- How a run of `main` terminates: an uncaught exception (Python exits
with a traceback and status 1), an early `sys.exit(1)` (connection check),
or the normal path through to line 199. -/
inductive RunResult where
  | crashed (msg : String)
  | exited (code : Nat)
  | finished (out : RunOutput)
deriving DecidableEq

/-- Inputs of one run: the parsed CLI flags, the two directory listings
(`none` when `dir.exists()` is false), the persisted store content, and
the `/api/status` probe result. -/
structure RunConfig where
  force : Bool
  prds_dir : String
  designs_dir : String
  prdListing : Option (List FileSpec)
  designListing : Option (List FileSpec)
  store : Option String
  statusOk : Bool

/-- `file.name` comparison used by `sorted` over the paths of one
directory (the directory part is shared, so paths compare by name). -/
def fileNameLe (a b : FileSpec) : Prop := strLe a.name b.name

instance : DecidableRel fileNameLe := fun a b => by
  unfold fileNameLe; infer_instance

/-- `sorted(dir.glob("*<ext>"))`: the listing filtered to names ending in
`ext`, sorted by name. -/
def globFiles (listing : List FileSpec) (ext : String) : List FileSpec :=
  List.insertionSort fileNameLe
    (listing.filter (fun f => List.isSuffixOf ext.toList f.name.toList))

/-- A candidate as the processing loops see it: the directory it came from
paired with its listing entry. -/
abbrev Cand := String × FileSpec

/-- `str(file_path)` for a candidate. -/
def ckey (c : Cand) : String := c.1 ++ "/" ++ c.2.name

/-- Candidate files of a run, in processing order (lines 140-142 and
157-160): `sorted(prd_dir.glob("*.txt")) + sorted(prd_dir.glob("*.md"))`,
then `sorted(design_dir.glob("*.json"))`; a missing directory contributes
nothing. -/
def candidates (cfg : RunConfig) : List Cand :=
  (match cfg.prdListing with
   | some l => (globFiles l ".txt" ++ globFiles l ".md").map
       (fun f => (cfg.prds_dir, f))
   | none => []) ++
  (match cfg.designListing with
   | some l => (globFiles l ".json").map (fun f => (cfg.designs_dir, f))
   | none => [])

/-- Loop body shared by the PRD and design loops (lines 143-154 and
161-172): call `ingest_file`, bump the matching counter, record the
outcome. -/
def stepC (acc : Tracking × Stats × List (String × String)) (c : Cand) :
    Tracking × Stats × List (String × String) :=
  let key := ckey c
  let r := ingest_file ⟨key, c.2.hash, c.2.readResult⟩ acc.1 c.2.sink
  let s := acc.2.1
  let s' :=
    if r.status = "ingested" then
      ⟨s.ingested + 1, s.skipped, s.failed, s.total_chunks + r.chunks⟩
    else if r.status = "skipped" then
      ⟨s.ingested, s.skipped + 1, s.failed, s.total_chunks⟩
    else
      ⟨s.ingested, s.skipped, s.failed + 1, s.total_chunks⟩
  (r.tracking, s', acc.2.2 ++ [(key, r.status)])

/-- The store operations a non-crashed run performs: one read when the
store was loaded and found, then the single end-of-run write (line 175).
Nothing in `main` ever deletes the store file. -/
def runStoreOps (cfg : RunConfig) (saved : String) : List StoreOp :=
  (if cfg.force then []
   else
     match cfg.store with
     | some _ => [StoreOp.readOp]
     | none => []) ++ [StoreOp.writeOp saved]

/-- Lines 136-199 of `main`, once a tracking dict has been obtained and the
connection probe passed: process all candidates, save, and exit 0 exactly
when no candidate failed. -/
def finishRun (cfg : RunConfig) (tracking0 : Tracking) : RunOutput :=
  let start : Tracking × Stats × List (String × String) :=
    (tracking0, ⟨0, 0, 0, 0⟩, [])
  let res := (candidates cfg).foldl stepC start
  let saved := save_tracking res.1
  ⟨res.2.1, res.1, saved, res.2.2, runStoreOps cfg saved,
    if res.2.1.failed = 0 then 0 else 1⟩

/-- `main` (lines 105-199).  Load the store (or start empty under
`--force`; the loading happens before the connection probe), abort with
exit 1 when the probe fails, then run `finishRun`. -/
def run_main (cfg : RunConfig) : RunResult :=
  match (if cfg.force then Except.ok [] else load_tracking cfg.store :
      Except String Tracking) with
  | Except.error e => RunResult.crashed e
  | Except.ok tracking0 =>
    if cfg.statusOk = false then RunResult.exited 1
    else RunResult.finished (finishRun cfg tracking0)

/-- Process exit status of a run (`sys.exit` argument; an uncaught
exception exits with status 1). -/
def runExitCode : RunResult → Nat
  | RunResult.crashed _ => 1
  | RunResult.exited c => c
  | RunResult.finished out => out.exitCode

/-- Keys of the per-file outcomes, in processing order (empty when the run
did not reach the processing loops). -/
def runOutcomeKeys : RunResult → List String
  | RunResult.finished out => out.outcomes.map Prod.fst
  | _ => []

end Smart

namespace Reset

/-! ## Embedding of `src/rag_system/reset_and_reingest.py` -/

/-- `execute_sql` (reset_and_reingest.py lines 30-49): a 2xx response whose
JSON is not an error — or whose error message contains `does not exist` —
returns `True`; any other error body, a non-2xx status
(`raise_for_status`), or an exception returns `False`. -/
def execute_sql : HttpResponse → Bool
  | HttpResponse.ok body =>
    if body.typ = "error" then
      decide ("does not exist".toList <:+: body.error_message.toList)
    else true
  | HttpResponse.httpErr _ => false
  | HttpResponse.exn _ => false

/-- Observable outcome of one `main` run of the reset script: which of the
six steps executed, the `execute_sql` result of each executed SQL step
(1 drop agent, 2 drop knowledge base, 3 create model, 4 create knowledge
base, 5 create agent), the tracking-file operations of step 6, and whether
the workflow ran to completion. -/
structure ResetOutcome where
  steps : List Nat
  stepResults : List (Nat × Bool)
  storeOps : List Smart.StoreOp
  completed : Bool
deriving DecidableEq

/-- `main` (lines 51-160).  Steps 1-3 call `execute_sql` without checking
its result; steps 4 and 5 `return` early when `execute_sql` is falsy;
step 6 deletes the tracking file when it exists. -/
def reset_main (r1 r2 r3 r4 r5 : HttpResponse) (trackingExists : Bool) :
    ResetOutcome :=
  let b1 := execute_sql r1
  let b2 := execute_sql r2
  let b3 := execute_sql r3
  let b4 := execute_sql r4
  if b4 = false then
    ⟨[1, 2, 3, 4], [(1, b1), (2, b2), (3, b3), (4, false)], [], false⟩
  else
    let b5 := execute_sql r5
    if b5 = false then
      ⟨[1, 2, 3, 4, 5], [(1, b1), (2, b2), (3, b3), (4, true), (5, false)],
        [], false⟩
    else
      ⟨[1, 2, 3, 4, 5, 6], [(1, b1), (2, b2), (3, b3), (4, true), (5, true)],
        if trackingExists then [Smart.StoreOp.deleteOp] else [], true⟩

end Reset

/-! ## Concrete instances used by witnesses and counterexamples -/

/-- A 200 response carrying a tabular result. -/
def exOkTable (rows : List (List Int)) : HttpResponse :=
  HttpResponse.ok ⟨"table", rows, ""⟩

namespace Smart

/-- A healthy sink: count 10 before, 13 after a successful submission. -/
def exSinkOk : SinkOracle :=
  ⟨exOkTable [[10]], fun _ => exOkTable [], exOkTable [[13]]⟩

/-- A sink whose count drops from 10 to 3 across a successful submission. -/
def exSinkDrop : SinkOracle :=
  ⟨exOkTable [[10]], fun _ => exOkTable [], exOkTable [[3]]⟩

/-- A sink whose submission always raises. -/
def exSinkSubmitFail : SinkOracle :=
  ⟨exOkTable [[0]], fun _ => HttpResponse.exn "submit down", exOkTable [[0]]⟩

/-- A sink whose baseline count call fails but whose submission succeeds
and whose post-submission count is 5. -/
def exSinkNoBase : SinkOracle :=
  ⟨HttpResponse.exn "count down", fun _ => exOkTable [], exOkTable [[5]]⟩

/-- Candidate file whose submission fails. -/
def exFileA : FileSpec := ⟨"a.txt", "ha", Except.ok "A", exSinkSubmitFail⟩

/-- Candidate file whose submission succeeds. -/
def exFileB : FileSpec := ⟨"b.txt", "hb", Except.ok "B", exSinkOk⟩

/-- A small healthy run configuration: two PRD files, one design file,
no prior store, reachable sink. -/
def exCfg : RunConfig := ⟨false, "data/prds", "data/designs",
  some [⟨"doc1.txt", "h1", Except.ok "one", exSinkOk⟩,
        ⟨"doc2.md", "h2", Except.ok "two", exSinkOk⟩],
  some [⟨"design.json", "h3", Except.ok "three", exSinkOk⟩], none, true⟩

/-- `exCfg` with force mode on and a fully-populated prior store. -/
def exCfgForce : RunConfig := ⟨true, "data/prds", "data/designs",
  exCfg.prdListing, exCfg.designListing,
  some (save_tracking [("data/prds/doc1.txt", "h1"),
    ("data/prds/doc2.md", "h2"), ("data/designs/design.json", "h3")]), true⟩

/-- A documents directory holding `a.md` and `b.txt`. -/
def exCfgOrder : RunConfig := ⟨false, "docs", "designs",
  some [⟨"a.md", "h", Except.ok "x", exSinkOk⟩,
        ⟨"b.txt", "h", Except.ok "y", exSinkOk⟩],
  some [], none, true⟩

end Smart

/-! ## Helper lemmas: dict semantics -/

theorem lookupT_dictSet_self (t : Tracking) (k v : String) :
    lookupT (dictSet t k v) k = some v := by
  induction t with
  | nil => simp [dictSet, lookupT]
  | cons kv rest ih =>
    by_cases h : kv.1 = k
    · simp [dictSet, h, lookupT]
    · simp [dictSet, h, lookupT, ih]

theorem lookupT_dictSet_ne (t : Tracking) (k v k' : String) (h : k ≠ k') :
    lookupT (dictSet t k v) k' = lookupT t k' := by
  induction t with
  | nil => simp [dictSet, lookupT, h]
  | cons kv rest ih =>
    by_cases hk : kv.1 = k
    · simp [dictSet, hk, lookupT, h, hk ▸ h]
    · simp [dictSet, hk, lookupT, ih]

theorem lookupT_dictSet_isSome (t : Tracking) (k v k' : String)
    (h : (lookupT t k').isSome) : (lookupT (dictSet t k v) k').isSome := by
  by_cases hk : k = k'
  · subst hk; simp [lookupT_dictSet_self]
  · rwa [lookupT_dictSet_ne t k v k' hk]

namespace Smart

/-! ## Helper lemmas: `ingest_file` -/

theorem ingest_file_skipped (f : FileInput) (t : Tracking) (s : SinkOracle)
    (h : lookupT t f.key = some f.hash) :
    ingest_file f t s = ⟨"skipped", "Already ingested", 0, t, []⟩ := by
  simp [ingest_file, h]

theorem ingest_file_read_error (f : FileInput) (t : Tracking) (s : SinkOracle)
    (e : String) (hns : lookupT t f.key ≠ some f.hash)
    (he : f.readResult = Except.error e) :
    ingest_file f t s = ⟨"failed", e, 0, t, [SinkCall.countCall]⟩ := by
  simp [ingest_file, hns, he]

theorem ingest_file_submit_failure (f : FileInput) (t : Tracking)
    (s : SinkOracle) (content m : String)
    (hns : lookupT t f.key ≠ some f.hash)
    (hread : f.readResult = Except.ok content)
    (hsub : execute_sql (s.submit (insertQuery content)) =
      ExecResult.failure m) :
    ingest_file f t s =
      ⟨"failed", m, 0, t, [SinkCall.countCall, SinkCall.submitCall]⟩ := by
  simp [ingest_file, hns, hread, hsub]

theorem ingest_file_success (f : FileInput) (t : Tracking) (s : SinkOracle)
    (content : String) (body : JsonBody)
    (hns : lookupT t f.key ≠ some f.hash)
    (hread : f.readResult = Except.ok content)
    (hsub : execute_sql (s.submit (insertQuery content)) =
      ExecResult.success body) :
    ingest_file f t s =
      ⟨"ingested", "Success",
        get_chunk_count s.countAfter - get_chunk_count s.countBefore,
        dictSet t f.key f.hash,
        [SinkCall.countCall, SinkCall.submitCall, SinkCall.countCall]⟩ := by
  simp [ingest_file, hns, hread, hsub]

/-- `ingest_file` ends in exactly one of the three outcomes, and the
tracking dict is touched only by the `ingested` outcome, which sets this
entry of this file to its current hash. -/
theorem ingest_file_cases (f : FileInput) (t : Tracking) (s : SinkOracle) :
    ((ingest_file f t s).status = "skipped" ∧ (ingest_file f t s).tracking = t) ∨
    ((ingest_file f t s).status = "failed" ∧ (ingest_file f t s).tracking = t) ∨
    ((ingest_file f t s).status = "ingested" ∧
      (ingest_file f t s).tracking = dictSet t f.key f.hash) := by
  by_cases h : lookupT t f.key = some f.hash
  · exact Or.inl ⟨by simp [ingest_file_skipped f t s h],
      by simp [ingest_file_skipped f t s h]⟩
  · cases hr : f.readResult with
    | error e =>
      exact Or.inr (Or.inl ⟨by simp [ingest_file_read_error f t s e h hr],
        by simp [ingest_file_read_error f t s e h hr]⟩)
    | ok content =>
      cases hs : execute_sql (s.submit (insertQuery content)) with
      | success body =>
        exact Or.inr (Or.inr
          ⟨by simp [ingest_file_success f t s content body h hr hs],
           by simp [ingest_file_success f t s content body h hr hs]⟩)
      | failure m =>
        exact Or.inr (Or.inl
          ⟨by simp [ingest_file_submit_failure f t s content m h hr hs],
           by simp [ingest_file_submit_failure f t s content m h hr hs]⟩)

theorem ingest_file_status_skipped (f : FileInput) (t : Tracking)
    (s : SinkOracle) (h : (ingest_file f t s).status = "skipped") :
    lookupT t f.key = some f.hash := by
  by_cases hl : lookupT t f.key = some f.hash
  · exact hl
  · exfalso
    cases hr : f.readResult with
    | error e => rw [ingest_file_read_error f t s e hl hr] at h; simp at h
    | ok content =>
      cases hs : execute_sql (s.submit (insertQuery content)) with
      | success body =>
        rw [ingest_file_success f t s content body hl hr hs] at h; simp at h
      | failure m =>
        rw [ingest_file_submit_failure f t s content m hl hr hs] at h
        simp at h

end Smart

/-! ## Helper lemmas: the string order used by `sorted` -/

theorem charsLe_total : ∀ a b : List Char, charsLe a b = true ∨ charsLe b a = true
  | [], _ => Or.inl rfl
  | _ :: _, [] => Or.inr rfl
  | a :: as, b :: bs => by
    by_cases h : a = b
    · subst h
      rcases charsLe_total as bs with h' | h'
      · exact Or.inl (by simp [charsLe, h'])
      · exact Or.inr (by simp [charsLe, h'])
    · rcases lt_or_gt_of_ne h with hlt | hgt
      · exact Or.inl (by simp [charsLe, h, hlt])
      · exact Or.inr (by simp [charsLe, Ne.symm h, hgt])

theorem charsLe_trans : ∀ a b c : List Char,
    charsLe a b = true → charsLe b c = true → charsLe a c = true
  | [], _, _, _, _ => rfl
  | _ :: _, [], _, h1, _ => by simp [charsLe] at h1
  | _ :: _, _ :: _, [], _, h2 => by simp [charsLe] at h2
  | a :: as, b :: bs, c :: cs, h1, h2 => by
    by_cases hab : a = b <;> by_cases hbc : b = c
    · subst hab; subst hbc
      simp only [charsLe, if_pos rfl] at h1 h2 ⊢
      exact charsLe_trans as bs cs h1 h2
    · subst hab
      simp [charsLe, hbc] at h2 ⊢
      exact h2
    · subst hbc
      simp [charsLe, hab] at h1 ⊢
      exact h1
    · simp [charsLe, hab] at h1
      simp [charsLe, hbc] at h2
      have hac : a < c := lt_trans h1 h2
      simp [charsLe, ne_of_lt hac, hac]

instance : IsTotal String strLe :=
  ⟨fun a b => charsLe_total a.toList b.toList⟩

instance : IsTrans String strLe :=
  ⟨fun _ _ _ h1 h2 => charsLe_trans _ _ _ h1 h2⟩

namespace Smart

instance : IsTotal FileSpec fileNameLe :=
  ⟨fun a b => charsLe_total a.name.toList b.name.toList⟩

instance : IsTrans FileSpec fileNameLe :=
  ⟨fun _ _ _ h1 h2 => charsLe_trans _ _ _ h1 h2⟩

/-! ## Helper lemmas: the processing fold of `main` -/

theorem stepC_tracking (acc : Tracking × Stats × List (String × String))
    (c : Cand) :
    (stepC acc c).1 =
      (ingest_file ⟨ckey c, c.2.hash, c.2.readResult⟩ acc.1 c.2.sink).tracking := rfl

theorem stepC_outcomes (acc : Tracking × Stats × List (String × String))
    (c : Cand) :
    (stepC acc c).2.2 = acc.2.2 ++
      [(ckey c, (ingest_file ⟨ckey c, c.2.hash, c.2.readResult⟩ acc.1 c.2.sink).status)] := rfl

/-- Each loop iteration appends exactly one outcome, keyed by the file. -/
theorem foldl_outcome_keys (cands : List Cand)
    (acc : Tracking × Stats × List (String × String)) :
    ((cands.foldl stepC acc).2.2).map Prod.fst =
      (acc.2.2).map Prod.fst ++ cands.map ckey := by
  induction cands generalizing acc with
  | nil => simp
  | cons c rest ih =>
    simp only [List.foldl_cons, ih (stepC acc c), stepC_outcomes, List.map_append,
      List.map_cons, List.map_nil, List.map_map, List.cons_append, List.nil_append]
    simp [List.append_assoc]

/-- Outcomes already recorded survive the rest of the run. -/
theorem foldl_outcomes_mono (cands : List Cand)
    (acc : Tracking × Stats × List (String × String)) :
    ∃ tail, (cands.foldl stepC acc).2.2 = acc.2.2 ++ tail := by
  induction cands generalizing acc with
  | nil => exact ⟨[], by simp⟩
  | cons c rest ih =>
    rcases ih (stepC acc c) with ⟨tail, ht⟩
    refine ⟨[(ckey c,
      (ingest_file ⟨ckey c, c.2.hash, c.2.readResult⟩ acc.1 c.2.sink).status)] ++ tail, ?_⟩
    simp only [List.foldl_cons, ht, stepC_outcomes, List.append_assoc]

/-- The failure counter never decreases. -/
theorem stepC_failed_mono (acc : Tracking × Stats × List (String × String))
    (c : Cand) : acc.2.1.failed ≤ (stepC acc c).2.1.failed := by
  unfold stepC
  dsimp only
  split
  · exact Nat.le_refl _
  · split
    · exact Nat.le_refl _
    · exact Nat.le_succ _

theorem foldl_failed_mono (cands : List Cand)
    (acc : Tracking × Stats × List (String × String)) :
    acc.2.1.failed ≤ (cands.foldl stepC acc).2.1.failed := by
  induction cands generalizing acc with
  | nil => exact Nat.le_refl _
  | cons c rest ih =>
    exact Nat.le_trans (stepC_failed_mono acc c) (ih (stepC acc c))

/-- A step changes the tracking dict at most at its own file key. -/
theorem stepC_lookup_ne (acc : Tracking × Stats × List (String × String))
    (c : Cand) (k : String) (h : ckey c ≠ k) :
    lookupT (stepC acc c).1 k = lookupT acc.1 k := by
  rw [stepC_tracking]
  rcases ingest_file_cases ⟨ckey c, c.2.hash, c.2.readResult⟩ acc.1 c.2.sink with
    ⟨_, ht⟩ | ⟨_, ht⟩ | ⟨_, ht⟩ <;> rw [ht]
  exact lookupT_dictSet_ne _ _ _ _ h

/-- Keys not belonging to any remaining candidate keep their entry. -/
theorem foldl_lookup_ne (cands : List Cand)
    (acc : Tracking × Stats × List (String × String)) (k : String)
    (h : ∀ c ∈ cands, ckey c ≠ k) :
    lookupT (cands.foldl stepC acc).1 k = lookupT acc.1 k := by
  induction cands generalizing acc with
  | nil => rfl
  | cons c rest ih =>
    rw [List.foldl_cons, ih (stepC acc c) (fun c' hc' => h c' (List.mem_cons_of_mem _ hc')),
      stepC_lookup_ne acc c k (h c (List.mem_cons_self _ _))]

/-- An existing entry never disappears during a run. -/
theorem foldl_lookup_isSome (cands : List Cand)
    (acc : Tracking × Stats × List (String × String)) (k : String)
    (h : (lookupT acc.1 k).isSome) :
    (lookupT (cands.foldl stepC acc).1 k).isSome := by
  induction cands generalizing acc with
  | nil => exact h
  | cons c rest ih =>
    refine ih (stepC acc c) ?_
    rw [stepC_tracking]
    rcases ingest_file_cases ⟨ckey c, c.2.hash, c.2.readResult⟩ acc.1 c.2.sink with
      ⟨_, ht⟩ | ⟨_, ht⟩ | ⟨_, ht⟩ <;> rw [ht]
    · exact h
    · exact h
    · exact lookupT_dictSet_isSome _ _ _ _ h

/-- If the entry of a file key changed during the run, some candidate with that
key was recorded `ingested`. -/
theorem foldl_changed_ingested (cands : List Cand)
    (acc : Tracking × Stats × List (String × String)) (k : String)
    (h : lookupT (cands.foldl stepC acc).1 k ≠ lookupT acc.1 k) :
    (k, "ingested") ∈ (cands.foldl stepC acc).2.2 := by
  induction cands generalizing acc with
  | nil => exact absurd rfl h
  | cons c rest ih =>
    rw [List.foldl_cons] at h ⊢
    by_cases hstep : lookupT (stepC acc c).1 k = lookupT acc.1 k
    · exact ih (stepC acc c) (fun he => h (he.trans hstep))
    · have hkey : ckey c = k := by
        by_contra hne
        exact hstep (stepC_lookup_ne acc c k hne)
      have hing : (ingest_file ⟨ckey c, c.2.hash, c.2.readResult⟩ acc.1 c.2.sink).status
          = "ingested" := by
        rcases ingest_file_cases ⟨ckey c, c.2.hash, c.2.readResult⟩ acc.1 c.2.sink with
          ⟨_, ht⟩ | ⟨_, ht⟩ | ⟨hs, _⟩
        · exact absurd (by rw [stepC_tracking, ht]) hstep
        · exact absurd (by rw [stepC_tracking, ht]) hstep
        · exact hs
      have hmem : (k, "ingested") ∈ (stepC acc c).2.2 := by
        rw [stepC_outcomes, hing, hkey]
        exact List.mem_append_right _ (List.mem_singleton.mpr rfl)
      rcases foldl_outcomes_mono rest (stepC acc c) with ⟨tail, ht⟩
      rw [ht]
      exact List.mem_append_left _ hmem

theorem stepC_skip (acc : Tracking × Stats × List (String × String)) (c : Cand)
    (h : lookupT acc.1 (ckey c) = some c.2.hash) :
    stepC acc c = (acc.1,
      ⟨acc.2.1.ingested, acc.2.1.skipped + 1, acc.2.1.failed, acc.2.1.total_chunks⟩,
      acc.2.2 ++ [(ckey c, "skipped")]) := by
  have he := ingest_file_skipped ⟨ckey c, c.2.hash, c.2.readResult⟩ acc.1 c.2.sink h
  simp [stepC, he]

theorem stepC_ingested (acc : Tracking × Stats × List (String × String))
    (c : Cand) (content : String) (body : JsonBody)
    (hns : lookupT acc.1 (ckey c) ≠ some c.2.hash)
    (hread : c.2.readResult = Except.ok content)
    (hsub : execute_sql (c.2.sink.submit (insertQuery content)) =
      ExecResult.success body) :
    stepC acc c = (dictSet acc.1 (ckey c) c.2.hash,
      ⟨acc.2.1.ingested + 1, acc.2.1.skipped, acc.2.1.failed,
        acc.2.1.total_chunks +
          (get_chunk_count c.2.sink.countAfter - get_chunk_count c.2.sink.countBefore)⟩,
      acc.2.2 ++ [(ckey c, "ingested")]) := by
  have he := ingest_file_success ⟨ckey c, c.2.hash, c.2.readResult⟩ acc.1 c.2.sink
    content body hns hread hsub
  simp [stepC, he]

theorem stepC_of_failed (acc : Tracking × Stats × List (String × String))
    (c : Cand)
    (hst : (ingest_file ⟨ckey c, c.2.hash, c.2.readResult⟩ acc.1 c.2.sink).status
      = "failed") :
    (stepC acc c).1 = acc.1 ∧
    (stepC acc c).2.1.failed = acc.2.1.failed + 1 := by
  have htr : (ingest_file ⟨ckey c, c.2.hash, c.2.readResult⟩ acc.1 c.2.sink).tracking
      = acc.1 := by
    rcases ingest_file_cases ⟨ckey c, c.2.hash, c.2.readResult⟩ acc.1 c.2.sink with
      ⟨hs, ht⟩ | ⟨_, ht⟩ | ⟨hs, _⟩
    · rw [hst] at hs; simp at hs
    · exact ht
    · rw [hst] at hs; simp at hs
  constructor
  · rw [stepC_tracking, htr]
  · simp [stepC, hst]

theorem stepC_failed_of_status_ne (acc : Tracking × Stats × List (String × String))
    (c : Cand)
    (h : (ingest_file ⟨ckey c, c.2.hash, c.2.readResult⟩ acc.1 c.2.sink).status
      ≠ "failed") :
    (stepC acc c).2.1.failed = acc.2.1.failed := by
  rcases ingest_file_cases ⟨ckey c, c.2.hash, c.2.readResult⟩ acc.1 c.2.sink with
    ⟨hs, _⟩ | ⟨hs, _⟩ | ⟨hs, _⟩
  · simp [stepC, hs]
  · exact absurd hs h
  · simp [stepC, hs]

/-- A run whose candidates are all up to date: nothing but the skip
counter moves, and the tracking dict comes through unchanged. -/
theorem foldl_all_skip (cands : List Cand)
    (acc : Tracking × Stats × List (String × String))
    (h : ∀ c ∈ cands, lookupT acc.1 (ckey c) = some c.2.hash) :
    (cands.foldl stepC acc).1 = acc.1 ∧
    (cands.foldl stepC acc).2.1 =
      ⟨acc.2.1.ingested, acc.2.1.skipped + cands.length, acc.2.1.failed,
        acc.2.1.total_chunks⟩ ∧
    (cands.foldl stepC acc).2.2 =
      acc.2.2 ++ cands.map (fun c => (ckey c, "skipped")) := by
  induction cands generalizing acc with
  | nil => obtain ⟨t0, st, o0⟩ := acc; obtain ⟨a, b, cc, d⟩ := st; simp
  | cons c rest ih =>
    have hc := h c (List.mem_cons_self _ _)
    have hs := stepC_skip acc c hc
    rw [List.foldl_cons, hs]
    have hrest : ∀ c' ∈ rest,
        lookupT (acc.1,
          (⟨acc.2.1.ingested, acc.2.1.skipped + 1, acc.2.1.failed,
            acc.2.1.total_chunks⟩ : Stats),
          acc.2.2 ++ [(ckey c, "skipped")]).1 (ckey c') = some c'.2.hash :=
      fun c' hc' => h c' (List.mem_cons_of_mem _ hc')
    rcases ih _ hrest with ⟨h1, h2, h3⟩
    refine ⟨h1, ?_, ?_⟩
    · rw [h2]
      simp [Nat.add_assoc, Nat.add_comm 1]
    · rw [h3]
      simp [List.append_assoc]

/-- In a run segment that records no `failed` outcome, every candidate
ends with its tracking entry equal to its current hash (skipped files
already had it; ingested files just wrote it). -/
theorem foldl_no_failed_entries (cands : List Cand)
    (acc : Tracking × Stats × List (String × String))
    (hnodup : (cands.map ckey).Nodup)
    (hfail : (cands.foldl stepC acc).2.1.failed = acc.2.1.failed) :
    ∀ c ∈ cands, lookupT (cands.foldl stepC acc).1 (ckey c) = some c.2.hash := by
  induction cands generalizing acc with
  | nil => intro c hc; simp at hc
  | cons c rest ih =>
    have hmono1 := stepC_failed_mono acc c
    have hmono2 := foldl_failed_mono rest (stepC acc c)
    rw [List.foldl_cons] at hfail
    have hstep : (stepC acc c).2.1.failed = acc.2.1.failed :=
      Nat.le_antisymm (hfail ▸ hmono2) hmono1
    have hnotfailed :
        (ingest_file ⟨ckey c, c.2.hash, c.2.readResult⟩ acc.1 c.2.sink).status
          ≠ "failed" := by
      intro hf
      have := (stepC_of_failed acc c hf).2
      omega
    have hafter : lookupT (stepC acc c).1 (ckey c) = some c.2.hash := by
      rcases ingest_file_cases ⟨ckey c, c.2.hash, c.2.readResult⟩ acc.1 c.2.sink with
        ⟨hs, ht⟩ | ⟨hs, _⟩ | ⟨_, ht⟩
      · rw [stepC_tracking, ht]
        exact ingest_file_status_skipped _ _ _ hs
      · exact absurd hs hnotfailed
      · rw [stepC_tracking, ht]
        exact lookupT_dictSet_self _ _ _
    have hne : ∀ c' ∈ rest, ckey c' ≠ ckey c := by
      intro c' hc' he
      have := (List.nodup_cons.mp hnodup).1
      exact this (he ▸ List.mem_map_of_mem ckey hc')
    intro d hd
    rcases List.mem_cons.mp hd with rfl | hd'
    · rw [List.foldl_cons, foldl_lookup_ne rest (stepC acc d) (ckey d) hne]
      exact hafter
    · rw [List.foldl_cons]
      exact ih (stepC acc c) (List.nodup_cons.mp hnodup).2
        (by rw [hstep]; exact hfail) d hd'

/-- A run over candidates none of which is in the store, with readable
files and successful submissions: everything is ingested, every entry is
freshly written, and nothing else in the store is touched. -/
theorem foldl_all_ingest (cands : List Cand)
    (acc : Tracking × Stats × List (String × String))
    (hnone : ∀ c ∈ cands, lookupT acc.1 (ckey c) = none)
    (hnodup : (cands.map ckey).Nodup)
    (hread : ∀ c ∈ cands, ∃ content, c.2.readResult = Except.ok content)
    (hsub : ∀ c ∈ cands, ∀ q, ∃ body,
      execute_sql (c.2.sink.submit q) = ExecResult.success body) :
    (cands.foldl stepC acc).2.1.ingested = acc.2.1.ingested + cands.length ∧
    (cands.foldl stepC acc).2.1.skipped = acc.2.1.skipped ∧
    (cands.foldl stepC acc).2.1.failed = acc.2.1.failed ∧
    (cands.foldl stepC acc).2.2 =
      acc.2.2 ++ cands.map (fun c => (ckey c, "ingested")) ∧
    (∀ c ∈ cands, lookupT (cands.foldl stepC acc).1 (ckey c) = some c.2.hash) := by
  induction cands generalizing acc with
  | nil => simp
  | cons c rest ih =>
    have hc := hnone c (List.mem_cons_self _ _)
    have hns : lookupT acc.1 (ckey c) ≠ some c.2.hash := by
      rw [hc]; simp
    obtain ⟨content, hcontent⟩ := hread c (List.mem_cons_self _ _)
    obtain ⟨body, hbody⟩ := hsub c (List.mem_cons_self _ _) (insertQuery content)
    have hs := stepC_ingested acc c content body hns hcontent hbody
    have hne : ∀ c' ∈ rest, ckey c' ≠ ckey c := by
      intro c' hc' he
      have := (List.nodup_cons.mp hnodup).1
      exact this (he ▸ List.mem_map_of_mem ckey hc')
    have hnone' : ∀ c' ∈ rest, lookupT (stepC acc c).1 (ckey c') = none := by
      intro c' hc'
      rw [hs]
      dsimp only
      rw [lookupT_dictSet_ne _ _ _ _ (fun he => hne c' hc' he.symm)]
      exact hnone c' (List.mem_cons_of_mem _ hc')
    have hread' : ∀ c' ∈ rest, ∃ content, c'.2.readResult = Except.ok content :=
      fun c' hc' => hread c' (List.mem_cons_of_mem _ hc')
    have hsub' : ∀ c' ∈ rest, ∀ q, ∃ body,
        execute_sql (c'.2.sink.submit q) = ExecResult.success body :=
      fun c' hc' => hsub c' (List.mem_cons_of_mem _ hc')
    rcases ih (stepC acc c) hnone' (List.nodup_cons.mp hnodup).2 hread' hsub' with
      ⟨h1, h2, h3, h4, h5⟩
    rw [List.foldl_cons] at *
    refine ⟨?_, ?_, ?_, ?_, ?_⟩
    · rw [h1, hs]; dsimp only; rw [List.length_cons]; omega
    · rw [h2, hs]
    · rw [h3, hs]
    · rw [h4, hs]; dsimp only; simp [List.append_assoc]
    · intro d hd
      rcases List.mem_cons.mp hd with rfl | hd'
      · rw [foldl_lookup_ne rest (stepC acc d) (ckey d) hne, hs]
        dsimp only
        exact lookupT_dictSet_self _ _ _
      · exact h5 d hd'

/-! ## Helper lemmas: the store serializer and parser -/

/-- A string free of the `"` delimiter (true of the paths and hex digests
the program actually stores; a key or value containing `"` would already
break `json`-level fidelity of the canonical layout). -/
def cleanS (s : String) : Prop := dquote ∉ s.toList

/-- All keys and values of the mapping are delimiter-free. -/
def cleanT (t : Tracking) : Prop := ∀ kv ∈ t, cleanS kv.1 ∧ cleanS kv.2

instance : DecidablePred cleanS := fun s => by unfold cleanS; infer_instance

instance : DecidablePred cleanT := fun t => by unfold cleanT; infer_instance

theorem strMk_toList (s : String) : String.mk s.toList = s := rfl

theorem strToList_mk (l : List Char) : (String.mk l).toList = l := rfl

theorem takeStr_append (k : List Char) (r : List Char) (hk : dquote ∉ k) :
    takeStr (k ++ dquote :: r) = some (k, r) := by
  induction k with
  | nil => simp [takeStr]
  | cons c cs ih =>
    have hc : c ≠ dquote := fun h => hk (h ▸ List.mem_cons_self _ _)
    have hcs : dquote ∉ cs := fun h => hk (List.mem_cons_of_mem _ h)
    simp [takeStr, hc, ih hcs]

theorem takeStr_no_quote : ∀ (cs s r : List Char),
    takeStr cs = some (s, r) → dquote ∉ s := by
  intro cs
  induction cs with
  | nil => intro s r h; simp [takeStr] at h
  | cons c rest ih =>
    intro s r h
    by_cases hc : c = dquote
    · rw [takeStr, if_pos hc] at h
      simp only [Option.some.injEq, Prod.mk.injEq] at h
      rw [← h.1]
      simp
    · rw [takeStr, if_neg hc] at h
      cases hts : takeStr rest with
      | none => rw [hts] at h; simp at h
      | some p =>
        obtain ⟨s', r'⟩ := p
        rw [hts] at h
        simp only [Option.some.injEq, Prod.mk.injEq] at h
        rw [← h.1]
        intro hmem
        rcases List.mem_cons.mp hmem with he | hm
        · exact hc he.symm
        · exact ih s' r' hts hm

theorem parsePairs_clean : ∀ (fuel : Nat) (cs : List Char) (t : Tracking),
    parsePairs fuel cs = some t → cleanT t := by
  intro fuel
  induction fuel with
  | zero => intro cs t h; simp [parsePairs] at h
  | succ f ih =>
    intro cs t h
    cases cs with
    | nil => simp [parsePairs] at h
    | cons c cs' =>
      simp only [parsePairs] at h
      by_cases hc : c = dquote
      case neg => rw [if_neg hc] at h; simp at h
      rw [if_pos hc] at h
      cases hk : takeStr cs' with
      | none => rw [hk] at h; simp at h
      | some pk =>
        obtain ⟨k, r1⟩ := pk
        rw [hk] at h
        dsimp only at h
        have hkq : dquote ∉ k := takeStr_no_quote cs' k r1 hk
        split at h
        case _ =>
          rename_i q r2
          by_cases hq : q = dquote
          case neg => rw [if_neg hq] at h; simp at h
          rw [if_pos hq] at h
          cases hv : takeStr r2 with
          | none => rw [hv] at h; simp at h
          | some pv =>
            obtain ⟨v, r3⟩ := pv
            rw [hv] at h
            dsimp only at h
            have hvq : dquote ∉ v := takeStr_no_quote r2 v r3 hv
            split at h
            case _ =>
              rename_i b
              by_cases hb : b = braceR
              case neg => rw [if_neg hb] at h; simp at h
              rw [if_pos hb] at h
              simp only [Option.some.injEq] at h
              rw [← h]
              intro kv hkv
              rcases List.mem_singleton.mp hkv with rfl
              exact ⟨hkq, hvq⟩
            case _ =>
              rename_i r4
              cases hp : parsePairs f r4 with
              | none => rw [hp] at h; simp at h
              | some rest =>
                rw [hp] at h
                simp only [Option.some.injEq] at h
                rw [← h]
                intro kv hkv
                rcases List.mem_cons.mp hkv with rfl | hm
                · exact ⟨hkq, hvq⟩
                · exact ih r4 rest hp kv hm
            case _ => simp at h
        case _ => simp at h

theorem parseChars_clean (cs : List Char) (t : Tracking)
    (h : parseChars cs = some t) : cleanT t := by
  unfold parseChars at h
  split at h
  · split at h
    · simp only [Option.some.injEq] at h
      rw [← h]
      intro kv hkv
      simp at hkv
    · simp at h
  · split at h
    · exact parsePairs_clean _ _ _ h
    · simp at h
  · simp at h

theorem load_tracking_clean (s : Option String) (t : Tracking)
    (h : load_tracking s = Except.ok t) : cleanT t := by
  cases s with
  | none =>
    simp only [load_tracking, Except.ok.injEq] at h
    rw [← h]
    intro kv hkv
    simp at hkv
  | some c =>
    simp only [load_tracking] at h
    cases hp : parseTracking c with
    | none => rw [hp] at h; simp at h
    | some t' =>
      rw [hp] at h
      simp only [Except.ok.injEq] at h
      rw [← h]
      exact parseChars_clean _ _ hp

theorem serializeEntryChars_length (kv : String × String) :
    (serializeEntryChars kv).length = kv.1.toList.length + kv.2.toList.length + 6 := by
  simp only [serializeEntryChars, List.length_cons, List.length_append,
    List.length_nil]
  omega

theorem serializeBodyChars_length_ge :
    ∀ t : Tracking, t.length ≤ (serializeBodyChars t).length := by
  intro t
  induction t with
  | nil => simp [serializeBodyChars]
  | cons kv rest ih =>
    cases rest with
    | nil =>
      show ([kv] : Tracking).length ≤ (serializeEntryChars kv).length
      rw [serializeEntryChars_length]
      simp only [List.length_cons, List.length_nil]
      omega
    | cons kv2 rest2 =>
      show (kv :: kv2 :: rest2).length ≤
        (serializeEntryChars kv ++ sepChars ++ serializeBodyChars (kv2 :: rest2)).length
      rw [List.length_append, List.length_append, serializeEntryChars_length]
      simp only [List.length_cons] at ih ⊢
      omega

theorem parsePairs_serializeBody : ∀ (t : Tracking) (fuel : Nat),
    t ≠ [] → t.length ≤ fuel → cleanT t →
    parsePairs fuel (serializeBodyChars t ++ ['\n', braceR]) = some t := by
  intro t
  induction t with
  | nil => intro fuel h; exact absurd rfl h
  | cons kv rest ih =>
    intro fuel _ hlen hclean
    obtain ⟨f, rfl⟩ : ∃ f, fuel = f + 1 :=
      ⟨fuel - 1, by simp only [List.length_cons] at hlen; omega⟩
    obtain ⟨hk, hv⟩ := hclean kv (List.mem_cons_self _ _)
    have hk' : dquote ∉ kv.1.data := hk
    have hv' : dquote ∉ kv.2.data := hv
    cases rest with
    | nil =>
      simp only [serializeBodyChars, serializeEntryChars]
      simp [parsePairs, List.append_assoc, takeStr_append, hk', hv', strMk_toList]
    | cons kv2 rest2 =>
      have hclean' : cleanT (kv2 :: rest2) :=
        fun kv' h' => hclean kv' (List.mem_cons_of_mem _ h')
      have hlen' : (kv2 :: rest2).length ≤ f := by
        simp only [List.length_cons] at hlen ⊢; omega
      have hrec := ih f (by simp) hlen' hclean'
      show parsePairs (f + 1)
        (serializeEntryChars kv ++ sepChars ++ serializeBodyChars (kv2 :: rest2)
          ++ ['\n', braceR]) = some (kv :: kv2 :: rest2)
      simp only [serializeEntryChars, sepChars]
      simp [parsePairs, List.append_assoc, takeStr_append, hk', hv', hrec,
        strMk_toList]

/-- The completed save loads back to exactly the mapping that was saved:
`load` after `save` is the identity on delimiter-free mappings. -/
theorem parseTracking_save (t : Tracking) (h : cleanT t) :
    parseTracking (save_tracking t) = some t := by
  cases t with
  | nil => decide
  | cons kv rest =>
    show parseChars (String.mk (serializeChars (kv :: rest))).toList = some (kv :: rest)
    rw [strToList_mk]
    simp only [serializeChars]
    have hfuel : (kv :: rest).length ≤
        (serializeBodyChars (kv :: rest)).length + 2 + 1 := by
      have hg := serializeBodyChars_length_ge (kv :: rest)
      simp only [List.length_cons] at hg ⊢
      omega
    have hmain := parsePairs_serializeBody (kv :: rest)
      ((serializeBodyChars (kv :: rest)).length + 2 + 1)
      (by simp) hfuel h
    simp [parseChars, hmain]

/-! ## Helper lemmas: cleanliness preservation and run inversion -/

theorem cleanT_dictSet (t : Tracking) (k v : String) (ht : cleanT t)
    (hk : cleanS k) (hv : cleanS v) : cleanT (dictSet t k v) := by
  induction t with
  | nil =>
    intro kv hkv
    rcases List.mem_singleton.mp hkv with rfl
    exact ⟨hk, hv⟩
  | cons kv0 rest ih =>
    intro kv hkv
    by_cases h0 : kv0.1 = k
    · rw [dictSet, if_pos h0] at hkv
      rcases List.mem_cons.mp hkv with rfl | hm
      · exact ⟨(ht kv0 (List.mem_cons_self _ _)).1, hv⟩
      · exact ht kv (List.mem_cons_of_mem _ hm)
    · rw [dictSet, if_neg h0] at hkv
      rcases List.mem_cons.mp hkv with rfl | hm
      · exact ht kv0 (List.mem_cons_self _ _)
      · exact ih (fun kv' h' => ht kv' (List.mem_cons_of_mem _ h')) kv hm

theorem foldl_clean (cands : List Cand)
    (acc : Tracking × Stats × List (String × String))
    (hacc : cleanT acc.1)
    (hcands : ∀ c ∈ cands, cleanS (ckey c) ∧ cleanS c.2.hash) :
    cleanT ((cands.foldl stepC acc).1) := by
  induction cands generalizing acc with
  | nil => exact hacc
  | cons c rest ih =>
    rw [List.foldl_cons]
    refine ih (stepC acc c) ?_ (fun c' hc' => hcands c' (List.mem_cons_of_mem _ hc'))
    rw [stepC_tracking]
    rcases ingest_file_cases ⟨ckey c, c.2.hash, c.2.readResult⟩ acc.1 c.2.sink with
      ⟨_, ht⟩ | ⟨_, ht⟩ | ⟨_, ht⟩ <;> rw [ht]
    · exact hacc
    · exact hacc
    · exact cleanT_dictSet acc.1 _ _ hacc (hcands c (List.mem_cons_self _ _)).1
        (hcands c (List.mem_cons_self _ _)).2

theorem run_main_finished_inv (cfg : RunConfig) (out : RunOutput)
    (h : run_main cfg = RunResult.finished out) :
    ∃ t0, (if cfg.force then Except.ok [] else load_tracking cfg.store :
        Except String Tracking) = Except.ok t0 ∧
      cfg.statusOk = true ∧ out = finishRun cfg t0 := by
  unfold run_main at h
  cases hl : (if cfg.force then Except.ok [] else load_tracking cfg.store :
      Except String Tracking) with
  | error e => rw [hl] at h; simp at h
  | ok t0 =>
    rw [hl] at h
    dsimp only at h
    by_cases hs : cfg.statusOk = false
    · rw [if_pos hs] at h; simp at h
    · rw [if_neg hs] at h
      simp only [RunResult.finished.injEq] at h
      exact ⟨t0, rfl, by simpa using hs, h.symm⟩

theorem finishRun_stats (cfg : RunConfig) (t0 : Tracking) :
    (finishRun cfg t0).stats =
      ((candidates cfg).foldl stepC (t0, ⟨0, 0, 0, 0⟩, [])).2.1 := rfl

theorem finishRun_tracking (cfg : RunConfig) (t0 : Tracking) :
    (finishRun cfg t0).tracking =
      ((candidates cfg).foldl stepC (t0, ⟨0, 0, 0, 0⟩, [])).1 := rfl

theorem finishRun_saved (cfg : RunConfig) (t0 : Tracking) :
    (finishRun cfg t0).saved = save_tracking (finishRun cfg t0).tracking := rfl

theorem finishRun_outcomes (cfg : RunConfig) (t0 : Tracking) :
    (finishRun cfg t0).outcomes =
      ((candidates cfg).foldl stepC (t0, ⟨0, 0, 0, 0⟩, [])).2.2 := rfl

/-! ## Claim C5 -/

/-- C5: a candidate file whose Tracking Store entry equals its current
fingerprint is recorded `skipped` and triggers no sink call at all —
`ingest_file` returns before touching the sink, and the run loop merely
bumps the skip counter and records the outcome. -/
theorem C5_skip_makes_no_sink_call :
    (∀ (f : FileInput) (t : Tracking) (s : SinkOracle),
      lookupT t f.key = some f.hash →
      ingest_file f t s = ⟨"skipped", "Already ingested", 0, t, []⟩) ∧
    (∀ (acc : Tracking × Stats × List (String × String)) (c : Cand),
      lookupT acc.1 (ckey c) = some c.2.hash →
      stepC acc c = (acc.1,
        ⟨acc.2.1.ingested, acc.2.1.skipped + 1, acc.2.1.failed,
          acc.2.1.total_chunks⟩,
        acc.2.2 ++ [(ckey c, "skipped")])) :=
  ⟨ingest_file_skipped, stepC_skip⟩

/-- C5 witness: a concrete up-to-date file is skipped with an empty trace
of sink calls. -/
theorem C5_skip_makes_no_sink_call_witness :
    ingest_file ⟨"data/prds/a.txt", "ha", Except.ok "A"⟩
        [("data/prds/a.txt", "ha")] exSinkOk =
      ⟨"skipped", "Already ingested", 0, [("data/prds/a.txt", "ha")], []⟩ :=
  C5_skip_makes_no_sink_call.1 ⟨"data/prds/a.txt", "ha", Except.ok "A"⟩
    [("data/prds/a.txt", "ha")] exSinkOk (by decide)

/-! ## Claim C2 -/

/-- C2 counterexample: across a successful submission during which the
count of the sink drops from 10 to 3, the recorded units-created is `-7` — the
code records the raw negative delta and does not clamp it to 0. -/
theorem C2_units_created_counterexample :
    (ingest_file ⟨"data/prds/a.txt", "ha", Except.ok "A"⟩ [] exSinkDrop).status
      = "ingested" ∧
    (ingest_file ⟨"data/prds/a.txt", "ha", Except.ok "A"⟩ [] exSinkDrop).chunks
      = -7 ∧
    ¬(0 ≤ (ingest_file ⟨"data/prds/a.txt", "ha", Except.ok "A"⟩ [] exSinkDrop).chunks) := by
  decide

/-- C2 (amended): for every candidate whose submission succeeds, the
recorded units-created equals exactly the `count()` of the sink taken after the
submission minus the `count()` taken before it (a rise from 10 to 13
records 3); no clamping is performed, so the recorded value is negative
whenever the count of the sink decreased. -/
theorem C2_units_created_is_exact_delta (f : FileInput) (t : Tracking)
    (s : SinkOracle) (content : String) (body : JsonBody)
    (hns : lookupT t f.key ≠ some f.hash)
    (hread : f.readResult = Except.ok content)
    (hsub : execute_sql (s.submit (insertQuery content)) =
      ExecResult.success body) :
    (ingest_file f t s).status = "ingested" ∧
    (ingest_file f t s).chunks =
      get_chunk_count s.countAfter - get_chunk_count s.countBefore := by
  rw [ingest_file_success f t s content body hns hread hsub]
  exact ⟨rfl, rfl⟩

/-- C2 witness: the count of the sink rises from 10 to 13 and the recorded
units-created is exactly 3. -/
theorem C2_units_created_is_exact_delta_witness :
    get_chunk_count exSinkOk.countBefore = 10 ∧
    get_chunk_count exSinkOk.countAfter = 13 ∧
    (ingest_file ⟨"data/prds/a.txt", "ha", Except.ok "A"⟩ [] exSinkOk).chunks
      = 3 := by
  refine ⟨by decide, by decide, ?_⟩
  have h := C2_units_created_is_exact_delta
    ⟨"data/prds/a.txt", "ha", Except.ok "A"⟩ [] exSinkOk "A" ⟨"table", [], ""⟩
    (by decide) rfl rfl
  rw [h.2]
  decide

/-! ## Claim C3 -/

/-- C3 counterexample: `save_tracking` truncates the store in place before
writing, so the empty file is a state reachable by crashing mid-save, and
the empty file does not parse — a crash in the middle of a save can leave
the persisted store unparseable, contradicting atomicity. -/
theorem C3_atomic_save_counterexample :
    save_crash_state [("data/prds/a.txt", "h1")] "" ∧
    parseTracking "" = none :=
  ⟨⟨0, rfl⟩, rfl⟩

/-- C3 (amended): `save` persists the serialization of the full mapping,
overwriting any prior contents (loading the completed save returns
exactly the saved mapping), but it is NOT atomic: the write happens in
place after truncation, so the unparseable empty store is a reachable
crash state of every save. -/
theorem C3_save_full_mapping_but_not_atomic (t : Tracking) (h : cleanT t) :
    parseTracking (save_tracking t) = some t ∧
    load_tracking (some (save_tracking t)) = Except.ok t ∧
    save_crash_state t "" ∧
    parseTracking "" = none := by
  have hp := parseTracking_save t h
  exact ⟨hp, by simp [load_tracking, hp], ⟨0, rfl⟩, rfl⟩

/-- C3 witness: round trip and reachable-unparseable crash state for a
concrete one-entry mapping. -/
theorem C3_save_full_mapping_but_not_atomic_witness :
    parseTracking (save_tracking [("data/prds/a.txt", "h1")]) =
      some [("data/prds/a.txt", "h1")] ∧
    load_tracking (some (save_tracking [("data/prds/a.txt", "h1")])) =
      Except.ok [("data/prds/a.txt", "h1")] ∧
    save_crash_state [("data/prds/a.txt", "h1")] "" ∧
    parseTracking "" = none :=
  C3_save_full_mapping_but_not_atomic [("data/prds/a.txt", "h1")] (by decide)

/-! ## Claim C10 -/

/-- C10: the chunk-count query is a total function of the response of the sink
— it never raises: it returns 0 on transport failure or non-200 status, on
a sink-reported non-table result, and on a table with no rows; as a
consequence, when the baseline count fails around a successful submission,
the recorded units-created equals the entire post-submission
count. -/
theorem C10_chunk_count_never_raises :
    (∀ (resp : HttpResponse) (msg : String),
      execute_sql resp = ExecResult.failure msg → get_chunk_count resp = 0) ∧
    (∀ code, get_chunk_count (HttpResponse.httpErr code) = 0) ∧
    (∀ msg, get_chunk_count (HttpResponse.exn msg) = 0) ∧
    (∀ body : JsonBody, body.typ ≠ "table" →
      get_chunk_count (HttpResponse.ok body) = 0) ∧
    (∀ body : JsonBody, body.data = [] →
      get_chunk_count (HttpResponse.ok body) = 0) ∧
    (∀ (f : FileInput) (t : Tracking) (s : SinkOracle)
       (content msg : String) (body : JsonBody),
      lookupT t f.key ≠ some f.hash →
      f.readResult = Except.ok content →
      execute_sql (s.submit (insertQuery content)) = ExecResult.success body →
      execute_sql s.countBefore = ExecResult.failure msg →
      (ingest_file f t s).chunks = get_chunk_count s.countAfter) := by
  refine ⟨?_, fun code => rfl, fun msg => rfl, ?_, ?_, ?_⟩
  · intro resp msg h
    cases resp with
    | ok body => simp [execute_sql] at h
    | httpErr code => rfl
    | exn m => rfl
  · intro body h
    simp [get_chunk_count, execute_sql, h]
  · intro body h
    by_cases ht : body.typ = "table"
    · simp [get_chunk_count, execute_sql, ht, h]
    · simp [get_chunk_count, execute_sql, ht]
  · intro f t s content msg body hns hread hsub hbefore
    rw [ingest_file_success f t s content body hns hread hsub]
    have h0 : get_chunk_count s.countBefore = 0 := by
      cases hr : s.countBefore with
      | ok b => rw [hr] at hbefore; simp [execute_sql] at hbefore
      | httpErr code => rfl
      | exn m => rfl
    dsimp only
    rw [h0]
    simp

/-- C10 witness: a sink whose baseline count call raises while the
submission succeeds and the post-submission count is 5 — the recorded
units-created is the entire 5, not a delta. -/
theorem C10_chunk_count_never_raises_witness :
    execute_sql exSinkNoBase.countBefore = ExecResult.failure "count down" ∧
    get_chunk_count exSinkNoBase.countBefore = 0 ∧
    get_chunk_count exSinkNoBase.countAfter = 5 ∧
    (ingest_file ⟨"data/prds/a.txt", "ha", Except.ok "A"⟩ [] exSinkNoBase).chunks
      = 5 := by
  refine ⟨rfl, C10_chunk_count_never_raises.1 exSinkNoBase.countBefore
    "count down" rfl, by decide, ?_⟩
  have h := C10_chunk_count_never_raises.2.2.2.2.2
    ⟨"data/prds/a.txt", "ha", Except.ok "A"⟩ [] exSinkNoBase "A" "count down"
    ⟨"table", [], ""⟩ (by decide) rfl rfl rfl
  rw [h]
  decide

/-! ## Claim C6 -/

/-- C6: a corrupt (unparseable) persisted store is fatal — `load` raises,
the exception propagates uncaught, and the run dies with a non-zero exit
before processing anything — while a missing store is the legitimate
first-run case and yields the empty mapping with no error. -/
theorem C6_corrupt_store_fatal :
    (load_tracking none = Except.ok []) ∧
    (∀ s : String, parseTracking s = none →
      load_tracking (some s) = Except.error "json.decoder.JSONDecodeError") ∧
    (∀ (cfg : RunConfig) (s : String), cfg.force = false → cfg.store = some s →
      parseTracking s = none →
      run_main cfg = RunResult.crashed "json.decoder.JSONDecodeError" ∧
      runExitCode (run_main cfg) ≠ 0) ∧
    (∀ cfg : RunConfig, cfg.force = false → cfg.store = none →
      cfg.statusOk = true →
      run_main cfg = RunResult.finished (finishRun cfg [])) := by
  refine ⟨rfl, ?_, ?_, ?_⟩
  · intro s hp
    simp [load_tracking, parseTracking] at hp ⊢
    rw [hp]
  · intro cfg s hf hs hp
    have hl : load_tracking cfg.store =
        Except.error "json.decoder.JSONDecodeError" := by
      rw [hs]
      simp only [load_tracking]
      rw [hp]
    have hcr : run_main cfg = RunResult.crashed "json.decoder.JSONDecodeError" := by
      simp [run_main, hf, hl]
    exact ⟨hcr, by rw [hcr]; simp [runExitCode]⟩
  · intro cfg hf hs hok
    have hl : load_tracking cfg.store = Except.ok [] := by
      rw [hs]; rfl
    simp [run_main, hf, hl, hok]

/-- C6 witness: a garbage store crashes the run with exit status 1, and
the same configuration with no store at all runs to completion starting
from the empty mapping. -/
theorem C6_corrupt_store_fatal_witness :
    parseTracking "garbage" = none ∧
    run_main ⟨false, "data/prds", "data/designs", exCfg.prdListing,
        exCfg.designListing, some "garbage", true⟩ =
      RunResult.crashed "json.decoder.JSONDecodeError" ∧
    runExitCode (run_main ⟨false, "data/prds", "data/designs", exCfg.prdListing,
        exCfg.designListing, some "garbage", true⟩) ≠ 0 ∧
    run_main exCfg = RunResult.finished (finishRun exCfg []) := by
  have h1 := C6_corrupt_store_fatal.2.2.1 ⟨false, "data/prds", "data/designs",
    exCfg.prdListing, exCfg.designListing, some "garbage", true⟩ "garbage"
    rfl rfl (by decide)
  have h2 := C6_corrupt_store_fatal.2.2.2 exCfg rfl rfl rfl
  exact ⟨by decide, h1.1, h1.2, h2⟩

/-! ## Claim C7 -/

/-- C7 counterexample: with a documents directory holding `a.md` and
`b.txt`, the run processes `b.txt` before `a.md` — within a directory the
order is grouped by extension (all `*.txt` before all `*.md`), not
lexicographic by file name across the extensions of the directory. -/
theorem C7_lexicographic_counterexample :
    runOutcomeKeys (run_main exCfgOrder) = ["docs/b.txt", "docs/a.md"] ∧
    ¬ List.Sorted strLe ["docs/b.txt", "docs/a.md"] := by
  constructor
  · decide
  · decide

/-- C7 (amended): within each directory candidates are grouped by
extension in the configured extension order — `*.txt` then `*.md` for the
documents directory, `*.json` for the designs directory — sorted
lexicographically by name inside each extension group; the documents
directory is processed before the designs directory. -/
theorem C7_discovery_grouped_by_extension (cfg : RunConfig) (out : RunOutput)
    (prdL dsgL : List FileSpec)
    (h : run_main cfg = RunResult.finished out)
    (hp : cfg.prdListing = some prdL) (hd : cfg.designListing = some dsgL) :
    out.outcomes.map Prod.fst =
      ((globFiles prdL ".txt").map (fun f => cfg.prds_dir ++ "/" ++ f.name) ++
       (globFiles prdL ".md").map (fun f => cfg.prds_dir ++ "/" ++ f.name)) ++
      (globFiles dsgL ".json").map (fun f => cfg.designs_dir ++ "/" ++ f.name) ∧
    (∀ (l : List FileSpec) (ext : String),
      List.Sorted fileNameLe (globFiles l ext)) ∧
    (∀ (l : List FileSpec) (ext : String), (globFiles l ext).Perm
      (l.filter (fun f => List.isSuffixOf ext.toList f.name.toList))) := by
  obtain ⟨t0, _, _, hout⟩ := run_main_finished_inv cfg out h
  refine ⟨?_, ?_, ?_⟩
  · rw [hout, finishRun_outcomes, foldl_outcome_keys]
    simp only [candidates, hp, hd, List.map_append, List.map_map,
      List.nil_append, List.append_assoc]
    rfl
  · intro l ext
    exact List.sorted_insertionSort fileNameLe _
  · intro l ext
    exact List.perm_insertionSort fileNameLe _

/-- C7 witness: the concrete healthy configuration is processed as
`doc1.txt`, `doc2.md`, then `design.json` — extension groups in order,
sorted within each group, documents before designs. -/
theorem C7_discovery_grouped_by_extension_witness :
    (finishRun exCfg []).outcomes.map Prod.fst =
      ((globFiles [⟨"doc1.txt", "h1", Except.ok "one", exSinkOk⟩,
          ⟨"doc2.md", "h2", Except.ok "two", exSinkOk⟩] ".txt").map
            (fun f => exCfg.prds_dir ++ "/" ++ f.name) ++
       (globFiles [⟨"doc1.txt", "h1", Except.ok "one", exSinkOk⟩,
          ⟨"doc2.md", "h2", Except.ok "two", exSinkOk⟩] ".md").map
            (fun f => exCfg.prds_dir ++ "/" ++ f.name)) ++
      (globFiles [⟨"design.json", "h3", Except.ok "three", exSinkOk⟩] ".json").map
        (fun f => exCfg.designs_dir ++ "/" ++ f.name) ∧
    (∀ (l : List FileSpec) (ext : String),
      List.Sorted fileNameLe (globFiles l ext)) ∧
    (∀ (l : List FileSpec) (ext : String), (globFiles l ext).Perm
      (l.filter (fun f => List.isSuffixOf ext.toList f.name.toList))) :=
  C7_discovery_grouped_by_extension exCfg (finishRun exCfg [])
    [⟨"doc1.txt", "h1", Except.ok "one", exSinkOk⟩,
     ⟨"doc2.md", "h2", Except.ok "two", exSinkOk⟩]
    [⟨"design.json", "h3", Except.ok "three", exSinkOk⟩]
    rfl rfl rfl

/-! ## Claim C1 -/

/-- C1: a Tracking Store entry is created or updated only by a successful
ingestion: skipped and failed outcomes leave the dict untouched, an
ingested outcome writes exactly the fingerprint of this file under its key, a
key whose entry changed during a run must have an `ingested` outcome
recorded for it, existing entries never disappear, and in a run where the
submission of file A fails while the one of file B succeeds, the entry of
B ends up at its fingerprint and the entry of A is exactly as before — in
either processing order. -/
theorem C1_entry_iff_successfully_ingested :
    (∀ (f : FileInput) (t : Tracking) (s : SinkOracle),
      (ingest_file f t s).status = "skipped" ∨ (ingest_file f t s).status = "failed" →
      (ingest_file f t s).tracking = t) ∧
    (∀ (f : FileInput) (t : Tracking) (s : SinkOracle),
      (ingest_file f t s).status = "ingested" →
      (ingest_file f t s).tracking = dictSet t f.key f.hash) ∧
    (∀ (cands : List Cand) (acc : Tracking × Stats × List (String × String))
       (k : String),
      lookupT ((cands.foldl stepC acc).1) k ≠ lookupT acc.1 k →
      (k, "ingested") ∈ (cands.foldl stepC acc).2.2) ∧
    (∀ (cands : List Cand) (acc : Tracking × Stats × List (String × String))
       (k : String),
      (lookupT acc.1 k).isSome → (lookupT ((cands.foldl stepC acc).1) k).isSome) ∧
    (∀ (dir : String) (A B : FileSpec) (t0 : Tracking) (s0 : Stats)
       (o0 : List (String × String)) (cA cB mA : String) (bodyB : JsonBody),
      ckey (dir, A) ≠ ckey (dir, B) →
      lookupT t0 (ckey (dir, A)) ≠ some A.hash →
      lookupT t0 (ckey (dir, B)) ≠ some B.hash →
      A.readResult = Except.ok cA →
      (∀ q, execute_sql (A.sink.submit q) = ExecResult.failure mA) →
      B.readResult = Except.ok cB →
      (∀ q, execute_sql (B.sink.submit q) = ExecResult.success bodyB) →
      ∀ l ∈ ([[(dir, A), (dir, B)], [(dir, B), (dir, A)]] : List (List Cand)),
        lookupT ((l.foldl stepC (t0, s0, o0)).1) (ckey (dir, B)) = some B.hash ∧
        lookupT ((l.foldl stepC (t0, s0, o0)).1) (ckey (dir, A)) =
          lookupT t0 (ckey (dir, A))) := by
  refine ⟨?_, ?_, foldl_changed_ingested, foldl_lookup_isSome, ?_⟩
  · intro f t s h
    rcases ingest_file_cases f t s with ⟨hs, ht⟩ | ⟨hs, ht⟩ | ⟨hs, ht⟩
    · exact ht
    · exact ht
    · rcases h with h | h <;> rw [hs] at h <;> simp at h
  · intro f t s h
    rcases ingest_file_cases f t s with ⟨hs, ht⟩ | ⟨hs, ht⟩ | ⟨hs, ht⟩
    · rw [hs] at h; simp at h
    · rw [hs] at h; simp at h
    · exact ht
  · intro dir A B t0 s0 o0 cA cB mA bodyB hkne hAns hBns hAr hAsub hBr hBsub l hl
    have hAeq : ∀ t : Tracking, lookupT t (ckey (dir, A)) ≠ some A.hash →
        ingest_file ⟨ckey (dir, A), A.hash, A.readResult⟩ t A.sink =
          ⟨"failed", mA, 0, t, [SinkCall.countCall, SinkCall.submitCall]⟩ :=
      fun t hns => ingest_file_submit_failure _ t _ cA mA hns hAr (hAsub _)
    have hBeq : ∀ t : Tracking, lookupT t (ckey (dir, B)) ≠ some B.hash →
        ingest_file ⟨ckey (dir, B), B.hash, B.readResult⟩ t B.sink =
          ⟨"ingested", "Success",
            get_chunk_count B.sink.countAfter - get_chunk_count B.sink.countBefore,
            dictSet t (ckey (dir, B)) B.hash,
            [SinkCall.countCall, SinkCall.submitCall, SinkCall.countCall]⟩ :=
      fun t hns => ingest_file_success _ t _ cB bodyB hns hBr (hBsub _)
    simp only [List.mem_cons, List.not_mem_nil, or_false, List.mem_singleton] at hl
    rcases hl with rfl | rfl
    · rw [List.foldl_cons, List.foldl_cons, List.foldl_nil]
      have h1 : (stepC (t0, s0, o0) (dir, A)).1 = t0 := by
        rw [stepC_tracking]
        dsimp only
        rw [hAeq t0 hAns]
      have h2 : (stepC (stepC (t0, s0, o0) (dir, A)) (dir, B)).1 =
          dictSet t0 (ckey (dir, B)) B.hash := by
        rw [stepC_tracking]
        dsimp only
        rw [h1, hBeq t0 hBns]
      rw [h2]
      exact ⟨lookupT_dictSet_self _ _ _,
        lookupT_dictSet_ne _ _ _ _ (fun he => hkne he.symm)⟩
    · rw [List.foldl_cons, List.foldl_cons, List.foldl_nil]
      have h1 : (stepC (t0, s0, o0) (dir, B)).1 =
          dictSet t0 (ckey (dir, B)) B.hash := by
        rw [stepC_tracking]
        dsimp only
        rw [hBeq t0 hBns]
      have h2 : (stepC (stepC (t0, s0, o0) (dir, B)) (dir, A)).1 =
          dictSet t0 (ckey (dir, B)) B.hash := by
        rw [stepC_tracking]
        dsimp only
        rw [h1, hAeq (dictSet t0 (ckey (dir, B)) B.hash)
          (by rw [lookupT_dictSet_ne _ _ _ _ (fun he => hkne he.symm)]; exact hAns)]
      rw [h2]
      exact ⟨lookupT_dictSet_self _ _ _,
        lookupT_dictSet_ne _ _ _ _ (fun he => hkne he.symm)⟩

/-- C1 witness: concrete run over file A (submission raises) and file B
(submission succeeds), processed A-then-B: the entry of B is written, the key of A
is still absent. -/
theorem C1_entry_iff_successfully_ingested_witness :
    lookupT ((([("data/prds", exFileA), ("data/prds", exFileB)] :
        List Cand).foldl stepC (([] : Tracking), (⟨0, 0, 0, 0⟩ : Stats),
        ([] : List (String × String)))).1) (ckey ("data/prds", exFileB)) =
      some exFileB.hash ∧
    lookupT ((([("data/prds", exFileA), ("data/prds", exFileB)] :
        List Cand).foldl stepC (([] : Tracking), (⟨0, 0, 0, 0⟩ : Stats),
        ([] : List (String × String)))).1) (ckey ("data/prds", exFileA)) =
      lookupT [] (ckey ("data/prds", exFileA)) :=
  C1_entry_iff_successfully_ingested.2.2.2.2 "data/prds" exFileA exFileB
    [] ⟨0, 0, 0, 0⟩ [] "A" "B" "submit down" ⟨"table", [], ""⟩
    (by decide) (by decide) (by decide) rfl (fun _ => rfl) rfl (fun _ => rfl)
    [("data/prds", exFileA), ("data/prds", exFileB)] (by simp)

/-! ## Claim C9 -/

/-- C9: force mode starts from the empty in-memory mapping instead of
loading the persisted store — which is neither read nor deleted, only
overwritten by the end-of-run save — so every candidate is re-ingested
regardless of any existing entries, and the save persists the refreshed
fingerprints; the result of the run does not depend on the store contents at
all. -/
theorem C9_force_reingests_everything (cfg : RunConfig)
    (hforce : cfg.force = true) (hok : cfg.statusOk = true)
    (hnodup : ((candidates cfg).map ckey).Nodup)
    (hread : ∀ c ∈ candidates cfg, ∃ content, c.2.readResult = Except.ok content)
    (hsub : ∀ c ∈ candidates cfg, ∀ q, ∃ body,
      execute_sql (c.2.sink.submit q) = ExecResult.success body) :
    run_main cfg = RunResult.finished (finishRun cfg []) ∧
    (finishRun cfg []).stats.ingested = (candidates cfg).length ∧
    (finishRun cfg []).stats.skipped = 0 ∧
    (finishRun cfg []).stats.failed = 0 ∧
    (finishRun cfg []).outcomes =
      (candidates cfg).map (fun c => (ckey c, "ingested")) ∧
    (∀ c ∈ candidates cfg,
      lookupT (finishRun cfg []).tracking (ckey c) = some c.2.hash) ∧
    (finishRun cfg []).saved = save_tracking (finishRun cfg []).tracking ∧
    (finishRun cfg []).storeOps = [StoreOp.writeOp (finishRun cfg []).saved] ∧
    (∀ s : Option String, run_main ⟨true, cfg.prds_dir, cfg.designs_dir,
      cfg.prdListing, cfg.designListing, s, cfg.statusOk⟩ = run_main cfg) := by
  have hrun : run_main cfg = RunResult.finished (finishRun cfg []) := by
    simp [run_main, hforce, hok]
  have hnone : ∀ c ∈ candidates cfg,
      lookupT (([] : Tracking), (⟨0, 0, 0, 0⟩ : Stats),
        ([] : List (String × String))).1 (ckey c) = none :=
    fun c _ => rfl
  obtain ⟨h1, h2, h3, h4, h5⟩ :=
    foldl_all_ingest (candidates cfg)
      (([] : Tracking), (⟨0, 0, 0, 0⟩ : Stats), ([] : List (String × String)))
      hnone hnodup hread hsub
  refine ⟨hrun, ?_, ?_, ?_, ?_, ?_, rfl, ?_, ?_⟩
  · rw [finishRun_stats, h1]
    simp
  · rw [finishRun_stats, h2]
  · rw [finishRun_stats, h3]
  · rw [finishRun_outcomes, h4]
    rfl
  · intro c hc
    rw [finishRun_tracking]
    exact h5 c hc
  · simp [finishRun, runStoreOps, hforce]
  · intro s
    have hs1 : run_main ⟨true, cfg.prds_dir, cfg.designs_dir, cfg.prdListing,
        cfg.designListing, s, cfg.statusOk⟩ =
        RunResult.finished (finishRun ⟨true, cfg.prds_dir, cfg.designs_dir,
          cfg.prdListing, cfg.designListing, s, cfg.statusOk⟩ []) := by
      simp [run_main, hok]
    rw [hs1, hrun]
    have hcand : candidates ⟨true, cfg.prds_dir, cfg.designs_dir, cfg.prdListing,
        cfg.designListing, s, cfg.statusOk⟩ = candidates cfg := rfl
    simp [finishRun, runStoreOps, hforce, hcand]

/-- C9 witness: force mode over a store that already holds every
unchanged fingerprint of every candidate still re-ingests all three candidate
files. -/
theorem C9_force_reingests_everything_witness :
    run_main exCfgForce = RunResult.finished (finishRun exCfgForce []) ∧
    (finishRun exCfgForce []).stats.ingested = (candidates exCfgForce).length ∧
    (finishRun exCfgForce []).stats.skipped = 0 ∧
    (finishRun exCfgForce []).stats.failed = 0 ∧
    (finishRun exCfgForce []).outcomes =
      (candidates exCfgForce).map (fun c => (ckey c, "ingested")) ∧
    (∀ c ∈ candidates exCfgForce,
      lookupT (finishRun exCfgForce []).tracking (ckey c) = some c.2.hash) ∧
    (finishRun exCfgForce []).saved =
      save_tracking (finishRun exCfgForce []).tracking ∧
    (finishRun exCfgForce []).storeOps =
      [StoreOp.writeOp (finishRun exCfgForce []).saved] ∧
    (∀ s : Option String, run_main ⟨true, exCfgForce.prds_dir,
      exCfgForce.designs_dir, exCfgForce.prdListing, exCfgForce.designListing,
      s, exCfgForce.statusOk⟩ = run_main exCfgForce) :=
  C9_force_reingests_everything exCfgForce rfl rfl (by decide)
    (by
      intro c hc
      rw [show candidates exCfgForce =
        [("data/prds", ⟨"doc1.txt", "h1", Except.ok "one", exSinkOk⟩),
         ("data/prds", ⟨"doc2.md", "h2", Except.ok "two", exSinkOk⟩),
         ("data/designs", ⟨"design.json", "h3", Except.ok "three", exSinkOk⟩)]
        from rfl] at hc
      fin_cases hc
      · exact ⟨"one", rfl⟩
      · exact ⟨"two", rfl⟩
      · exact ⟨"three", rfl⟩)
    (by
      intro c hc
      rw [show candidates exCfgForce =
        [("data/prds", ⟨"doc1.txt", "h1", Except.ok "one", exSinkOk⟩),
         ("data/prds", ⟨"doc2.md", "h2", Except.ok "two", exSinkOk⟩),
         ("data/designs", ⟨"design.json", "h3", Except.ok "three", exSinkOk⟩)]
        from rfl] at hc
      fin_cases hc <;> exact fun q => ⟨⟨"table", [], ""⟩, rfl⟩)

/-! ## Claim C8 -/

/-- C8: running the Engine twice in succession with no file changes and
all first-run submissions succeeding yields zero `ingested` and zero
`failed` outcomes on the second run (every candidate is skipped), and the
persisted store is byte-for-byte stable across the second run: the second
in-memory mapping and saved bytes of the second run equal those of the first. -/
theorem C8_second_run_idempotent (cfg1 : RunConfig) (out1 : RunOutput)
    (h1 : run_main cfg1 = RunResult.finished out1)
    (hfail : out1.stats.failed = 0)
    (hnodup : ((candidates cfg1).map ckey).Nodup)
    (hclean : ∀ c ∈ candidates cfg1, cleanS (ckey c) ∧ cleanS c.2.hash) :
    ∃ out2, run_main ⟨false, cfg1.prds_dir, cfg1.designs_dir, cfg1.prdListing,
        cfg1.designListing, some out1.saved, true⟩ = RunResult.finished out2 ∧
      out2.stats.ingested = 0 ∧ out2.stats.failed = 0 ∧
      out2.stats.skipped = (candidates cfg1).length ∧
      out2.tracking = out1.tracking ∧ out2.saved = out1.saved := by
  obtain ⟨t0, hload, hok, hout⟩ := run_main_finished_inv cfg1 out1 h1
  have ht0 : cleanT t0 := by
    by_cases hf : cfg1.force = true
    · rw [if_pos hf] at hload
      simp only [Except.ok.injEq] at hload
      rw [← hload]
      intro kv hkv
      simp at hkv
    · rw [if_neg hf] at hload
      exact load_tracking_clean _ _ hload
  have htr : out1.tracking =
      ((candidates cfg1).foldl stepC (t0, (⟨0, 0, 0, 0⟩ : Stats),
        ([] : List (String × String)))).1 := by
    rw [hout, finishRun_tracking]
  have hsv : out1.saved = save_tracking out1.tracking := by
    rw [hout, finishRun_saved]
  have hst : out1.stats =
      ((candidates cfg1).foldl stepC (t0, (⟨0, 0, 0, 0⟩ : Stats),
        ([] : List (String × String)))).2.1 := by
    rw [hout, finishRun_stats]
  have hent : ∀ c ∈ candidates cfg1,
      lookupT out1.tracking (ckey c) = some c.2.hash := by
    rw [htr]
    refine foldl_no_failed_entries _ _ hnodup ?_
    rw [← hst]
    exact hfail
  have hcleanF : cleanT out1.tracking := by
    rw [htr]
    exact foldl_clean _ _ ht0 hclean
  have hload2 : load_tracking (some out1.saved) = Except.ok out1.tracking := by
    rw [hsv]
    simp only [load_tracking]
    rw [parseTracking_save out1.tracking hcleanF]
  have hcand : candidates ⟨false, cfg1.prds_dir, cfg1.designs_dir,
      cfg1.prdListing, cfg1.designListing, some out1.saved, true⟩ =
      candidates cfg1 := rfl
  have hrun2 : run_main ⟨false, cfg1.prds_dir, cfg1.designs_dir,
      cfg1.prdListing, cfg1.designListing, some out1.saved, true⟩ =
      RunResult.finished (finishRun ⟨false, cfg1.prds_dir, cfg1.designs_dir,
        cfg1.prdListing, cfg1.designListing, some out1.saved, true⟩
        out1.tracking) := by
    simp [run_main, hload2]
  obtain ⟨hs1, hs2, hs3⟩ :=
    foldl_all_skip (candidates cfg1) (out1.tracking, (⟨0, 0, 0, 0⟩ : Stats),
      ([] : List (String × String))) (fun c hc => hent c hc)
  refine ⟨_, hrun2, ?_, ?_, ?_, ?_, ?_⟩
  · rw [finishRun_stats, hcand, hs2]
  · rw [finishRun_stats, hcand, hs2]
  · rw [finishRun_stats, hcand, hs2]
    simp
  · rw [finishRun_tracking, hcand, hs1]
  · rw [finishRun_saved, finishRun_tracking, hcand, hs1, ← hsv]

/-- C8 witness: the healthy three-file configuration, run once from an
empty store and then re-run on the store it saved: the second run skips
all three candidates and saves the identical bytes. -/
theorem C8_second_run_idempotent_witness :
    ∃ out2, run_main ⟨false, exCfg.prds_dir, exCfg.designs_dir,
        exCfg.prdListing, exCfg.designListing,
        some (finishRun exCfg []).saved, true⟩ = RunResult.finished out2 ∧
      out2.stats.ingested = 0 ∧ out2.stats.failed = 0 ∧
      out2.stats.skipped = (candidates exCfg).length ∧
      out2.tracking = (finishRun exCfg []).tracking ∧
      out2.saved = (finishRun exCfg []).saved :=
  C8_second_run_idempotent exCfg (finishRun exCfg []) rfl (by decide)
    (by decide) (by decide)

end Smart

/-! ## Claim C4 -/

/-- C4 counterexample: a failure that is not an "object does not exist"
error at step 1 (drop agent) does not abort the workflow — `execute_sql`
reports it as failure, yet all six steps still execute and the reset runs
to completion. -/
theorem C4_abort_counterexample :
    Reset.execute_sql (HttpResponse.ok ⟨"error", [], "Syntax error near DROP"⟩)
      = false ∧
    (Reset.reset_main (HttpResponse.ok ⟨"error", [], "Syntax error near DROP"⟩)
      (exOkTable []) (exOkTable []) (exOkTable []) (exOkTable []) true).steps
      = [1, 2, 3, 4, 5, 6] ∧
    (Reset.reset_main (HttpResponse.ok ⟨"error", [], "Syntax error near DROP"⟩)
      (exOkTable []) (exOkTable []) (exOkTable []) (exOkTable []) true).completed
      = true := by
  decide

/-- C4 (amended): an "object does not exist" error is treated as success
at every step — so a second reset against already-absent objects reports
success on both drop steps — but only failures of the
create-knowledge-base and create-agent steps abort the remaining steps;
failures of the drop-agent, drop-knowledge-base and create-model steps
are reported in the step results yet do not stop the workflow. -/
theorem C4_reset_idempotent_teardown_partial_abort :
    (∀ body : JsonBody, body.typ = "error" →
      ("does not exist".toList <:+: body.error_message.toList) →
      Reset.execute_sql (HttpResponse.ok body) = true) ∧
    (∀ body : JsonBody, body.typ = "error" →
      ¬("does not exist".toList <:+: body.error_message.toList) →
      Reset.execute_sql (HttpResponse.ok body) = false) ∧
    (∀ code, Reset.execute_sql (HttpResponse.httpErr code) = false) ∧
    (∀ msg, Reset.execute_sql (HttpResponse.exn msg) = false) ∧
    (∀ (r1 r2 r3 r4 r5 : HttpResponse) (te : Bool),
      Reset.execute_sql r4 = true → Reset.execute_sql r5 = true →
      Reset.reset_main r1 r2 r3 r4 r5 te =
        ⟨[1, 2, 3, 4, 5, 6],
         [(1, Reset.execute_sql r1), (2, Reset.execute_sql r2),
          (3, Reset.execute_sql r3), (4, true), (5, true)],
         if te then [Smart.StoreOp.deleteOp] else [], true⟩) ∧
    (∀ (r1 r2 r3 r4 r5 : HttpResponse) (te : Bool),
      Reset.execute_sql r4 = false →
      (Reset.reset_main r1 r2 r3 r4 r5 te).steps = [1, 2, 3, 4] ∧
      (Reset.reset_main r1 r2 r3 r4 r5 te).completed = false) ∧
    (∀ (r1 r2 r3 r4 r5 : HttpResponse) (te : Bool),
      Reset.execute_sql r4 = true → Reset.execute_sql r5 = false →
      (Reset.reset_main r1 r2 r3 r4 r5 te).steps = [1, 2, 3, 4, 5] ∧
      (Reset.reset_main r1 r2 r3 r4 r5 te).completed = false) := by
  refine ⟨?_, ?_, fun code => rfl, fun msg => rfl, ?_, ?_, ?_⟩
  · intro body hty hinf
    simp [Reset.execute_sql, hty]
    exact hinf
  · intro body hty hinf
    simp [Reset.execute_sql, hty]
    exact hinf
  · intro r1 r2 r3 r4 r5 te h4 h5
    simp [Reset.reset_main, h4, h5]
  · intro r1 r2 r3 r4 r5 te h4
    simp [Reset.reset_main, h4]
  · intro r1 r2 r3 r4 r5 te h4 h5
    simp [Reset.reset_main, h4, h5]

/-- C4 witness: a second reset run, with both drop steps answering
"Agent/Knowledge base does not exist", reports success on steps 1 and 2
and runs to completion. -/
theorem C4_reset_idempotent_teardown_partial_abort_witness :
    Reset.reset_main (HttpResponse.ok ⟨"error", [], "Agent tidal does not exist"⟩)
      (HttpResponse.ok ⟨"error", [], "Knowledge base prd_knowledge_base does not exist"⟩)
      (exOkTable []) (exOkTable []) (exOkTable []) false =
      ⟨[1, 2, 3, 4, 5, 6], [(1, true), (2, true), (3, true), (4, true), (5, true)],
        [], true⟩ := by
  have h := C4_reset_idempotent_teardown_partial_abort.2.2.2.2.1
    (HttpResponse.ok ⟨"error", [], "Agent tidal does not exist"⟩)
    (HttpResponse.ok ⟨"error", [], "Knowledge base prd_knowledge_base does not exist"⟩)
    (exOkTable []) (exOkTable []) (exOkTable []) false rfl rfl
  rw [h]
  have h1 := C4_reset_idempotent_teardown_partial_abort.1
    ⟨"error", [], "Agent tidal does not exist"⟩ rfl (by decide)
  have h2 := C4_reset_idempotent_teardown_partial_abort.1
    ⟨"error", [], "Knowledge base prd_knowledge_base does not exist"⟩ rfl (by decide)
  rw [h1, h2]
  decide

end Tidal
